import Mathlib

/-!
Verification development for the regex engine of this repository
(src/regex/{ir,input,parser,vm}.rs).  The instruction set, the UTF-8
byte-cursor text model, the recursive backtracking VM and the
recursive-descent compiler are embedded as executable Lean definitions,
translated arm by arm from the Rust source.  A second executor,
clearly marked as modelled from the specification text, is used only to
exhibit divergences between code and spec.

Modelling conventions:
* Rust machine integers are Nat/Int; the one place where wrap-around
  matters (casting a negative isize to usize in VM::jump_by) is modelled
  with an explicit reduction modulo 2^64.
* A Rust panic (slice-index panic, Vec-index panic, todo!()) is the
  result RunRes.abort (for the VM) or a dedicated constructor (for the
  parser); recursion of the Rust functions is made structural with a
  fuel argument, fuel exhaustion being the result .out.
* Rust HashSet of chars is modelled as a duplicate-free List Char with
  insertion at the tail; only membership (contains) is ever observed.
-/

namespace CCGrep

/-- Instruction set of src/regex/ir.rs.  The declared payload of Jump and
Split in ir.rs is usize, but the parser stores values produced by
calc_jump_offset (an isize, possibly negative) and the VM consumes them
through jump_by (an isize); the merged, type-correct reading used by both
sides is a signed offset, hence Int here. -/
inductive Inst where
  | Char (c : Char)
  | AnyChar
  | Start
  | End
  | Match
  | Jump (offset : Int)
  | Split (offset1 offset2 : Int)
  | CharClass (negated : Bool) (chars : List Char)
  | Digit
  | MetaChar
  | GroupBegin (n : Nat)
  | GroupEnd (n : Nat)
  | Ref (n : Nat)
deriving DecidableEq, Repr

/-! ### Text cursor (src/regex/input.rs)

The Rust code addresses the text by UTF-8 byte offsets.  The text is a
List Char; byte offsets are interpreted against it with Char.utf8Size,
and an offset that falls inside a character (not a boundary) yields none,
exactly like str::get on a non-boundary index. -/

/-- Drop the first n bytes of the text; none if n is not a character
boundary or exceeds the text length (str::get(n..)). -/
def dropBytes : List Char → Nat → Option (List Char)
  | t, 0 => some t
  | [], _ + 1 => none
  | c :: cs, n + 1 =>
    if n + 1 < c.utf8Size then none else dropBytes cs (n + 1 - c.utf8Size)

/-- Take exactly n bytes worth of characters; none if n is not a
boundary of the given suffix or exceeds it. -/
def takeBytes : List Char → Nat → Option (List Char)
  | _, 0 => some []
  | [], _ + 1 => none
  | c :: cs, n + 1 =>
    if c.utf8Size ≤ n + 1 then (takeBytes cs (n + 1 - c.utf8Size)).map (c :: ·)
    else none

/-- Byte length of the text (str::len). -/
def byteLen (t : List Char) : Nat := (t.map Char.utf8Size).sum

/-- Text::char_at: the character starting at byte offset i, none at or
past the end or at a non-boundary. -/
def charAt (t : List Char) (i : Nat) : Option Char :=
  (dropBytes t i).bind List.head?

/-- Text::matchwith_at. -/
def matchwith_at (t : List Char) (i : Nat) (ch : Char) : Bool :=
  charAt t i = some ch

/-- The byte slice text[s..e] of Inst::Ref: panics (none) when s > e,
when either end is not a character boundary, or when e exceeds the
length. -/
def sliceBytes (t : List Char) (s e : Nat) : Option (List Char) :=
  if s ≤ e then (dropBytes t s).bind (fun r => takeBytes r (e - s)) else none

/-! ### The backtracking VM (src/regex/vm.rs) -/

/-- Outcome of a VM run: a boolean, a Rust panic (abort), or fuel
exhaustion (out), the latter standing for the unbounded recursion of the
Rust function. -/
inductive RunRes where
  | ok (b : Bool)
  | abort
  | out
deriving DecidableEq, Repr

/-- The capture table VM.capatured: pairs (start, end) of byte offsets,
end = 0 meaning not yet closed. -/
abbrev Caps := List (Nat × Nat)

/-- VM::save_context: push (cursor, 0) at the tail of the table. -/
def save_context (caps : Caps) (cursor : Nat) : Caps := caps ++ [(cursor, 0)]

/-- VM::fill_back: write the end offset of the entry at index
group_num - 1, a no-op when the index is out of range (get_mut = None). -/
def fill_back (caps : Caps) (group_num e : Nat) : Caps :=
  match caps[group_num - 1]? with
  | some (s, _) => caps.set (group_num - 1) (s, e)
  | none => caps

/-- VM::restore_context: reset the end offset of the entry at index
group_num - 1 to 0, a no-op when the index is out of range. -/
def restore_context (caps : Caps) (group_num : Nat) : Caps :=
  match caps[group_num - 1]? with
  | some (s, _) => caps.set (group_num - 1) (s, 0)
  | none => caps

/-- VM::jump_by: ((pc as isize) + offset) as usize.  The cast of a
negative isize to usize wraps modulo 2^64. -/
def jump_by (pc : Nat) (offset : Int) : Nat :=
  (((pc : Int) + offset) % (2 ^ 64 : Int)).toNat

/-- VM::run.  The capture table is threaded explicitly (it is the only
mutable state of the Rust method); the returned table is the table after
the call, since mutations survive returns.  A Vec-index panic
(instrs[pc] out of range, or the byte-slice panics in the Ref arm) is
.abort.  Note the Start arm: the Rust code returns the bare boolean
cursor == 0 without recursing to pc + 1.  The MetaChar test
is_alphanumeric is Unicode-aware in Rust; it is modelled here by its
ASCII restriction Char.isAlphanum, which agrees with Rust on every input
appearing in this development. -/
def run (fuel : Nat) (instrs : List Inst) (t : List Char) (pc cursor : Nat)
    (caps : Caps) : RunRes × Caps :=
  match fuel with
  | 0 => (.out, caps)
  | fuel + 1 =>
    match instrs[pc]? with
    | none => (.abort, caps)
    | some inst =>
      match inst with
      | .Char ch =>
        if matchwith_at t cursor ch then
          run fuel instrs t (pc + 1) (cursor + ch.utf8Size) caps
        else (.ok false, caps)
      | .AnyChar =>
        match charAt t cursor with
        | some c => run fuel instrs t (pc + 1) (cursor + c.utf8Size) caps
        | none => (.ok false, caps)
      | .Start => (.ok (decide (cursor = 0)), caps)
      | .End => (.ok (charAt t cursor).isNone, caps)
      | .Match => (.ok true, caps)
      | .Jump offset => run fuel instrs t (jump_by pc offset) cursor caps
      | .Split offset1 offset2 =>
        match run fuel instrs t (jump_by pc offset1) cursor caps with
        | (.ok true, caps1) => (.ok true, caps1)
        | (.ok false, caps1) => run fuel instrs t (jump_by pc offset2) cursor caps1
        | other => other
      | .CharClass negated chars =>
        match charAt t cursor with
        | some c =>
          if (if negated then ¬ chars.contains c else chars.contains c) then
            run fuel instrs t (pc + 1) (cursor + c.utf8Size) caps
          else (.ok false, caps)
        | none => (.ok false, caps)
      | .Digit =>
        match charAt t cursor with
        | some c =>
          if c.isDigit then run fuel instrs t (pc + 1) (cursor + c.utf8Size) caps
          else (.ok false, caps)
        | none => (.ok false, caps)
      | .MetaChar =>
        match charAt t cursor with
        | some c =>
          if c.isAlphanum || c = '_' then
            run fuel instrs t (pc + 1) (cursor + c.utf8Size) caps
          else (.ok false, caps)
        | none => (.ok false, caps)
      | .GroupBegin _ =>
        run fuel instrs t (pc + 1) cursor (save_context caps cursor)
      | .GroupEnd num =>
        match run fuel instrs t (pc + 1) cursor (fill_back caps num cursor) with
        | (.ok true, caps2) => (.ok true, caps2)
        | (.ok false, caps2) => (.ok false, restore_context caps2 num)
        | other => other
      | .Ref num =>
        match caps[num - 1]? with
        | none => (.ok false, caps)
        | some (s, e) =>
          match dropBytes t cursor, sliceBytes t s e with
          | some rest, some grp =>
            if grp.isPrefixOf rest then
              run fuel instrs t (pc + 1) (cursor + grp.length) caps
            else (.ok false, caps)
          | _, _ => (.abort, caps)

/-! ### Search driver

The repository wires no driver to VM::run (the unanchored search loop of
src/regex.rs drives the older engine of that file, which lacks groups
and back-references), so the driver is taken from the specification. -/

/-- Modelled from the spec: the driver is_match of section 4.3, missing
from src for the VM of vm.rs.  If the first instruction is Start, run
once from instruction index 1 at offset 0; otherwise try successive
character-boundary offsets until one run succeeds or the text is
exhausted; an empty program matches trivially.  Each candidate offset is
attempted with a fresh capture table, as in the unit tests of vm.rs which
construct a new VM per run. -/
def is_match_from (fuel : Nat) (instrs : List Inst) (t : List Char)
    (cursor : Nat) : RunRes :=
  match fuel with
  | 0 => .out
  | fuel + 1 =>
    match charAt t cursor with
    | none => .ok false
    | some c =>
      match run fuel instrs t 0 cursor [] with
      | (.ok true, _) => .ok true
      | (.ok false, _) => is_match_from fuel instrs t (cursor + c.utf8Size)
      | (r, _) => r

/-- Modelled from the spec: see is_match_from. -/
def is_match (fuel : Nat) (instrs : List Inst) (t : List Char) : RunRes :=
  match instrs.head? with
  | some .Start => (run fuel instrs t 1 0 []).1
  | some _ => is_match_from fuel instrs t 0
  | none => .ok true

/-! ### Specification executor

A second executor written from the words of the specification (sections
3 and 4.3), used to compare the code against the spec at the concrete
inputs of the claims.  It differs from the code exactly where the spec
text differs: Jump and Split targets are absolute instruction indices; a
Start assertion recurses to pc + 1; the capture table is indexed by
group number, GroupBegin n writing a fresh (offset, 0) into slot n; Ref
of a group whose end is 0 (never closed) fails; and a matched
back-reference advances the offset by the byte length of the captured
substring. -/

/-- Write pair p into slot n (1-based) of the capture table, growing the
table with (0, 0) entries as needed. -/
def specSetSlot (caps : Caps) (n : Nat) (p : Nat × Nat) : Caps :=
  (if caps.length < n then caps ++ List.replicate (n - caps.length) (0, 0)
   else caps).set (n - 1) p

/-- Record the provisional end of group n in the indexed table. -/
def specFillEnd (caps : Caps) (n e : Nat) : Caps :=
  match caps[n - 1]? with
  | some (s, _) => caps.set (n - 1) (s, e)
  | none => specSetSlot caps n (0, e)

/-- Roll the end of group n back to the open state 0. -/
def specResetEnd (caps : Caps) (n : Nat) : Caps :=
  match caps[n - 1]? with
  | some (s, _) => caps.set (n - 1) (s, 0)
  | none => caps

/-- Modelled from the spec: the step function of section 4.3 with the
capture-table discipline of section 3 and absolute addressing.  A
negative Jump or Split target cannot be an absolute instruction index
and is reported as .abort. -/
def runSpec (fuel : Nat) (instrs : List Inst) (t : List Char) (pc cursor : Nat)
    (caps : Caps) : RunRes × Caps :=
  match fuel with
  | 0 => (.out, caps)
  | fuel + 1 =>
    match instrs[pc]? with
    | none => (.abort, caps)
    | some inst =>
      match inst with
      | .Char ch =>
        if matchwith_at t cursor ch then
          runSpec fuel instrs t (pc + 1) (cursor + ch.utf8Size) caps
        else (.ok false, caps)
      | .AnyChar =>
        match charAt t cursor with
        | some c => runSpec fuel instrs t (pc + 1) (cursor + c.utf8Size) caps
        | none => (.ok false, caps)
      | .Start =>
        if cursor = 0 then runSpec fuel instrs t (pc + 1) cursor caps
        else (.ok false, caps)
      | .End => (.ok (charAt t cursor).isNone, caps)
      | .Match => (.ok true, caps)
      | .Jump target =>
        if target < 0 then (.abort, caps)
        else runSpec fuel instrs t target.toNat cursor caps
      | .Split target1 target2 =>
        if target1 < 0 ∨ target2 < 0 then (.abort, caps)
        else
          match runSpec fuel instrs t target1.toNat cursor caps with
          | (.ok true, caps1) => (.ok true, caps1)
          | (.ok false, caps1) => runSpec fuel instrs t target2.toNat cursor caps1
          | other => other
      | .CharClass negated chars =>
        match charAt t cursor with
        | some c =>
          if (if negated then ¬ chars.contains c else chars.contains c) then
            runSpec fuel instrs t (pc + 1) (cursor + c.utf8Size) caps
          else (.ok false, caps)
        | none => (.ok false, caps)
      | .Digit =>
        match charAt t cursor with
        | some c =>
          if c.isDigit then runSpec fuel instrs t (pc + 1) (cursor + c.utf8Size) caps
          else (.ok false, caps)
        | none => (.ok false, caps)
      | .MetaChar =>
        match charAt t cursor with
        | some c =>
          if c.isAlphanum || c = '_' then
            runSpec fuel instrs t (pc + 1) (cursor + c.utf8Size) caps
          else (.ok false, caps)
        | none => (.ok false, caps)
      | .GroupBegin num =>
        runSpec fuel instrs t (pc + 1) cursor (specSetSlot caps num (cursor, 0))
      | .GroupEnd num =>
        match runSpec fuel instrs t (pc + 1) cursor (specFillEnd caps num cursor) with
        | (.ok true, caps2) => (.ok true, caps2)
        | (.ok false, caps2) => (.ok false, specResetEnd caps2 num)
        | other => other
      | .Ref num =>
        match caps[num - 1]? with
        | none => (.ok false, caps)
        | some (s, e) =>
          if e = 0 then (.ok false, caps)
          else
            match dropBytes t cursor, sliceBytes t s e with
            | some rest, some grp =>
              if grp.isPrefixOf rest then
                runSpec fuel instrs t (pc + 1) (cursor + byteLen grp) caps
              else (.ok false, caps)
            | _, _ => (.abort, caps)

/-! ### Parser/Compiler (src/regex/parser.rs)

Parser state is the remaining character stream, the stack of pending
group numbers and the next group number to assign.  The Vec-based stack
of the source (push/pop at the tail) is modelled by a list with cons as
push and head as pop, the same LIFO discipline.  The instrs buffer and
patch_list fields of the Rust struct are never touched by the parse
functions of this draft (compile alone appends the final Match), so they
are not part of the state.  The message payload of
ParseError::InvalidQuantifier(String) is omitted: no observation in this
development depends on it.  A todo!() panic of parse_atom is the result
.abort. -/

inductive ParseError where
  | UnknownEscape (c : Char)
  | IncompletedEscape
  | UnclosedCharClass
  | UnclosedGroup
  | MisplacedAnchor
  | PatchError
  | GroupNumMissError
  | InvalidQuantifier
deriving DecidableEq, Repr

structure PState where
  chars : List Char
  num_stack : List Nat
  next_group_num : Nat
deriving DecidableEq, Repr

inductive PRes (α : Type) where
  | ok (a : α) (st : PState)
  | err (e : ParseError)
  | abort
  | out
deriving DecidableEq, Repr

/-- Literal characters accepted by parse_atom (the whitelist of
parser.rs lines 243-255); Char.ofNat 34 and 39 are the double quote and
the apostrophe. -/
def isLiteralChar (c : Char) : Bool :=
  decide (('a' ≤ c ∧ c ≤ 'z') ∨ ('A' ≤ c ∧ c ≤ 'Z') ∨ ('0' ≤ c ∧ c ≤ '9') ∨
    c = ',' ∨ c = '<' ∨ c = '>' ∨ c = ':' ∨ c = ' ' ∨ c = '-' ∨ c = '_' ∨
    c = Char.ofNat 34 ∨ c = Char.ofNat 39)

/-- HashSet insertion, modelled on a duplicate-free list. -/
def hsInsert (s : List Char) (c : Char) : List Char :=
  if s.contains c then s else s ++ [c]

/-- HashSet extend. -/
def hsExtend (s : List Char) (l : List Char) : List Char := l.foldl hsInsert s

/-- The ascending character range start..=end of Rust.  (The surrogate
gap that Rust's iterator skips is irrelevant here: the source applies
ranges only to ASCII endpoints.) -/
def charRangeList (a b : Char) : List Char :=
  (List.range (b.toNat + 1 - a.toNat)).map (fun i => Char.ofNat (a.toNat + i))

def digitChars : List Char := charRangeList '0' '9'

def lowerChars : List Char := charRangeList 'a' 'z'

def upperChars : List Char := charRangeList 'A' 'Z'

/-- Parser::translate_range: expand a class range when the endpoints are
in ascending order and of the same kind (digit-digit, lower-lower,
upper-upper); otherwise yield the three characters literally. -/
def translate_range (start endc : Char) : List Char :=
  if start.toNat ≤ endc.toNat ∧
      ((start.isDigit ∧ endc.isDigit) ∨ (start.isLower ∧ endc.isLower) ∨
        (start.isUpper ∧ endc.isUpper)) then
    charRangeList start endc
  else [start, '-', endc]

/-- Parser::calc_jump_offset: target - base. -/
def calc_jump_offset (base target : Int) : Int := target - base

/-- Parser::emit_jump_forward: a jump over the given block, offset
relative to the jump instruction itself. -/
def emit_jump_forward (insts : List Inst) : Inst :=
  .Jump (calc_jump_offset 0 ((insts.length : Int) + 1))

/-- Parser::emit_jump_backward: a jump from the end of the block back to
the instruction preceding it. -/
def emit_jump_backward (insts : List Inst) : Inst :=
  .Jump (calc_jump_offset (insts.length : Int) (-1))

/-- Parser::emit_split_code: a Split over two branches laid out in
sequence, both offsets relative to the Split instruction. -/
def emit_split_code (branch1 branch2 : List Inst) : List Inst :=
  [Inst.Split 1 (calc_jump_offset 0 ((branch1.length : Int) + 1))] ++ branch1 ++ branch2

/-- Parser::emit_zero_or_more_code. -/
def emit_zero_or_more_code (block : List Inst) : List Inst :=
  emit_split_code (block ++ [emit_jump_backward block]) []

/-- Parser::emit_one_or_more_code. -/
def emit_one_or_more_code (block : List Inst) : List Inst :=
  block ++ emit_zero_or_more_code block

/-- Parser::emit_zero_or_one_code. -/
def emit_zero_or_one_code (block : List Inst) : List Inst :=
  emit_split_code block []

/-- Result of the character-class loop inside parse_atom. -/
inductive ClsRes where
  | ok (inst : Inst) (rest : List Char)
  | err (e : ParseError)
  | out
deriving DecidableEq, Repr

/-- The loop of the '[' arm of Parser::parse_atom: build the character
set until the closing bracket. -/
def parse_cls (fuel : Nat) (stream : List Char) (negated : Bool)
    (set : List Char) : ClsRes :=
  match fuel with
  | 0 => .out
  | fuel + 1 =>
    match stream with
    | [] => .err .UnclosedCharClass
    | c :: rest =>
      if c = ']' then .ok (.CharClass negated set) rest
      else if c = '\\' then
        match rest with
        | [] => .err .IncompletedEscape
        | e :: rest2 =>
          if e = 'd' then parse_cls fuel rest2 negated (hsExtend set digitChars)
          else if e = 'w' then
            parse_cls fuel rest2 negated
              (hsExtend (hsInsert set '_') (digitChars ++ lowerChars ++ upperChars))
          else .err (.UnknownEscape e)
      else if c.isAlphanum then
        match rest with
        | '-' :: rest2 =>
          match rest2 with
          | e :: rest3 =>
            if e.isAlphanum then
              parse_cls fuel rest3 negated (hsExtend set (translate_range c e))
            else parse_cls fuel rest2 negated (hsInsert set '-')
          | [] => parse_cls fuel [] negated (hsInsert set '-')
        | _ => parse_cls fuel rest negated (hsInsert set c)
      else parse_cls fuel rest negated (hsInsert set c)

/-- Parser::parse_atom.  The two todo!() arms (an ordinary character
outside the whitelist, and an exhausted stream) are .abort. -/
def parse_atom (fuel : Nat) (st : PState) : PRes (List Inst) :=
  match st.chars with
  | [] => .abort
  | c :: rest =>
    if c = '.' then .ok [.AnyChar] {st with chars := rest}
    else if isLiteralChar c then .ok [.Char c] {st with chars := rest}
    else if c = '\\' then
      match rest with
      | [] => .err .IncompletedEscape
      | e :: rest2 =>
        if e = 'd' then .ok [.Digit] {st with chars := rest2}
        else if e = 'w' then .ok [.MetaChar] {st with chars := rest2}
        else if e = '\\' then .ok [.Char '\\'] {st with chars := rest2}
        else if '1' ≤ e ∧ e ≤ '9' then
          .ok [.Ref (e.toNat - '0'.toNat)] {st with chars := rest2}
        else .err (.UnknownEscape e)
    else if c = '[' then
      let negated : Bool := decide (rest.head? = some '^')
      let rest1 := if negated then rest.tail else rest
      match parse_cls fuel rest1 negated [] with
      | .ok inst rest2 => .ok [inst] {st with chars := rest2}
      | .err e => .err e
      | .out => .out
    else if c = '^' then .ok [.Start] {st with chars := rest}
    else if c = '$' then
      if rest.isEmpty then .ok [.End] {st with chars := rest}
      else .err .MisplacedAnchor
    else .abort

/-- Result of the digit-buffer loop of the brace quantifier. -/
inductive BrRes where
  | ok (buf rest : List Char)
  | err
  | out
deriving DecidableEq, Repr

/-- The buffering loop of the brace-quantifier arm of Parser::parse_term:
collect digits and commas until the closing brace; anything else (or
running out of input) is an invalid quantifier. -/
def collect_braces (fuel : Nat) (stream buf : List Char) : BrRes :=
  match fuel with
  | 0 => .out
  | fuel + 1 =>
    match stream with
    | [] => .err
    | c :: rest =>
      if c.isDigit ∨ c = ',' then collect_braces fuel rest (buf ++ [c])
      else if c = Char.ofNat 125 then .ok buf rest
      else .err

/-- The usize maximum, 2 ^ 64 - 1. -/
def usizeMax : Nat := 2 ^ 64 - 1

/-- str::split(",") on the digit buffer. -/
def splitComma : List Char → List (List Char)
  | [] => [[]]
  | c :: rest =>
    if c = ',' then [] :: splitComma rest
    else
      match splitComma rest with
      | f :: fs => (c :: f) :: fs
      | [] => [[c]]

/-- str::parse::<usize>: some value for a non-empty all-digit string
whose value fits in usize, none otherwise (including overflow). -/
def parseUsize (l : List Char) : Option Nat :=
  if l = [] then none
  else if l.all Char.isDigit then
    let v := l.foldl (fun acc c => acc * 10 + (c.toNat - '0'.toNat)) 0
    if v ≤ usizeMax then some v else none
  else none

/-- Concatenation of n copies of a block (the for _ in 1..=min loop). -/
def joinN (n : Nat) (block : List Inst) : List Inst :=
  (List.replicate n block).flatten

/-- The bound computation and code emission of the brace-quantifier arm
of Parser::parse_term, applied to the collected digit buffer: split at
commas, parse the first field as min, the second as max (empty second
field meaning usize::MAX, absent second field meaning min), reject
min > max, then emit min mandatory copies followed by a starred copy
when max is usize::MAX, or by (max - min) optional copies when max
differs from min. -/
def braceExpand (buf : List Char) (block : List Inst) :
    Except ParseError (List Inst) :=
  let digits := splitComma buf
  match digits[0]? with
  | none => .error .InvalidQuantifier
  | some d1 =>
    match parseUsize d1 with
    | none => .error .InvalidQuantifier
    | some min =>
      let maxv? : Option Nat :=
        match digits[1]? with
        | none => some min
        | some d2 => if d2 = [] then some usizeMax else parseUsize d2
      match maxv? with
      | none => .error .InvalidQuantifier
      | some maxv =>
        if min > maxv then .error .InvalidQuantifier
        else
          .ok (joinN min block ++
            (if maxv = usizeMax then emit_zero_or_more_code block
             else if maxv ≠ min then joinN (maxv - min) (emit_zero_or_one_code block)
             else []))

/-- The quantifier phase of Parser::parse_term: the second match on
chars.peek() after the block has been parsed.  Char.ofNat 123 is the
opening brace. -/
def apply_quantifier (fuel : Nat) (block : List Inst) (st : PState) :
    PRes (List Inst) :=
  match st.chars with
  | [] => .ok block st
  | c :: rest =>
    if c = '*' then .ok (emit_zero_or_more_code block) {st with chars := rest}
    else if c = '+' then .ok (emit_one_or_more_code block) {st with chars := rest}
    else if c = '?' then .ok (emit_zero_or_one_code block) {st with chars := rest}
    else if c = Char.ofNat 123 then
      match collect_braces fuel rest [] with
      | .ok buf rest2 =>
        match braceExpand buf block with
        | .ok rb => .ok rb {st with chars := rest2}
        | .error e => .err e
      | .err => .err .InvalidQuantifier
      | .out => .out
    else .ok block st

mutual

/-- Parser::parse_term: a block (group or atom) followed by an optional
quantifier. -/
def parse_term : Nat → PState → PRes (List Inst)
  | 0, _ => .out
  | fuel + 1, st =>
    match parse_block fuel st with
    | .ok block st1 => apply_quantifier fuel block st1
    | other => other

/-- The block phase of Parser::parse_term: either a parenthesised group
(Parser::next_group_num pushes the fresh number, the loop collects the
branches) or a single atom. -/
def parse_block : Nat → PState → PRes (List Inst)
  | 0, _ => .out
  | fuel + 1, st =>
    match st.chars with
    | [] => parse_atom fuel st
    | c :: rest =>
      if c = '(' then
        group_loop fuel
          { chars := rest, num_stack := st.next_group_num :: st.num_stack,
            next_group_num := st.next_group_num + 1 }
          st.next_group_num false [] []
      else parse_atom fuel st

/-- The body loop of the group arm of Parser::parse_term: terms are
collected into branch1 until a vertical bar flips real_split, then into
branch2; the closing parenthesis assembles the group, popping
Parser::current_group_num for the GroupEnd marker. -/
def group_loop : Nat → PState → Nat → Bool → List Inst → List Inst →
    PRes (List Inst)
  | 0, _, _, _, _, _ => .out
  | fuel + 1, st, gnum, real_split, branch1, branch2 =>
    match st.chars with
    | [] => .err .UnclosedGroup
    | c :: rest =>
      if c = '|' then
        group_loop fuel { st with chars := rest } gnum true branch1 branch2
      else if c = ')' then
        let body :=
          if real_split then
            emit_split_code (branch1 ++ [emit_jump_forward branch2]) branch2
          else branch1
        match st.num_stack with
        | [] => .err .GroupNumMissError
        | n :: tl =>
          .ok ([Inst.GroupBegin gnum] ++ body ++ [Inst.GroupEnd n])
            { st with chars := rest, num_stack := tl }
      else
        match parse_term fuel st with
        | .ok res st2 =>
          if real_split then
            group_loop fuel st2 gnum real_split branch1 (branch2 ++ res)
          else group_loop fuel st2 gnum real_split (branch1 ++ res) branch2
        | other => other

end

/-- Parser::parse_expr: parse terms while input remains. -/
def parse_expr (fuel : Nat) (st : PState) (acc : List Inst) :
    PRes (List Inst) :=
  match fuel with
  | 0 => .out
  | fuel + 1 =>
    match st.chars with
    | [] => .ok acc st
    | _ :: _ =>
      match parse_term fuel st with
      | .ok res st2 => parse_expr fuel st2 (acc ++ res)
      | other => other

/-- Outcome of Parser::compile. -/
inductive CompileRes where
  | ok (prog : List Inst)
  | err (e : ParseError)
  | abort
  | out
deriving DecidableEq, Repr

/-- Fuel budget amply covering the recursion depth of the parser on the
given pattern (every parse step consumes at least one character). -/
def compileFuel (p : List Char) : Nat := 4 * p.length + 16

/-- Parser::compile: parse the whole pattern and append the final Match
instruction. -/
def compile (p : List Char) : CompileRes :=
  match parse_expr (compileFuel p) ⟨p, [], 1⟩ [] with
  | .ok instrs _ => .ok (instrs ++ [.Match])
  | .err e => .err e
  | .abort => .abort
  | .out => .out

/-! ### Concrete programs and patterns used by the claims -/

/-- Compiled form of the pattern (.)\1z. -/
def prog_dotref : List Inst :=
  [.GroupBegin 1, .AnyChar, .GroupEnd 1, .Ref 1, .Char 'z', .Match]

/-- The text of two e-acute characters (2 UTF-8 bytes each) followed by
the letter z. -/
def text_eez : List Char := ['é', 'é', 'z']

/-- Compiled form of the pattern a*. -/
def prog_astar : List Inst := [.Split 1 3, .Char 'a', .Jump (-2), .Match]

/-- Compiled form of the pattern a(b\1): the back-reference executes
while group 1 is still open. -/
def prog_openref : List Inst :=
  [.Char 'a', .GroupBegin 1, .Char 'b', .Ref 1, .GroupEnd 1, .Match]

/-- A program whose Split has a first alternative that closes group 1
and then fails, and a second alternative that re-enters group 1 from
text offset 0 and consults it through a back-reference. -/
def prog_reenter : List Inst :=
  [.Split 1 7, .Char 'a', .GroupBegin 1, .Char 'b', .GroupEnd 1,
   .Char 'x', .Jump 6, .GroupBegin 1, .Char 'a', .GroupEnd 1,
   .Ref 1, .Char 'b', .Match]

/-- The pattern (y(a)x|ya\2)+ as a character list. -/
def pat_plus : List Char :=
  ['(', 'y', '(', 'a', ')', 'x', '|', 'y', 'a', '\\', '2', ')', '+']

/-- The pattern (y(a)x|ya\2)(y(a)x|ya\2)* as a character list. -/
def pat_concatstar : List Char :=
  ['(', 'y', '(', 'a', ')', 'x', '|', 'y', 'a', '\\', '2', ')',
   '(', 'y', '(', 'a', ')', 'x', '|', 'y', 'a', '\\', '2', ')', '*']

/-- Compiled form of pat_plus: the single-term block duplicated by the
one-or-more emitter, both copies carrying group numbers 1 and 2. -/
def prog_plus : List Inst :=
  [.GroupBegin 1, .Split 1 7, .Char 'y', .GroupBegin 2, .Char 'a',
   .GroupEnd 2, .Char 'x', .Jump 4, .Char 'y', .Char 'a', .Ref 2,
   .GroupEnd 1,
   .Split 1 14,
   .GroupBegin 1, .Split 1 7, .Char 'y', .GroupBegin 2, .Char 'a',
   .GroupEnd 2, .Char 'x', .Jump 4, .Char 'y', .Char 'a', .Ref 2,
   .GroupEnd 1, .Jump (-13), .Match]

/-- Compiled form of pat_concatstar: the second copy is renumbered to
groups 3 and 4 while its back-reference still names group 2. -/
def prog_concatstar : List Inst :=
  [.GroupBegin 1, .Split 1 7, .Char 'y', .GroupBegin 2, .Char 'a',
   .GroupEnd 2, .Char 'x', .Jump 4, .Char 'y', .Char 'a', .Ref 2,
   .GroupEnd 1,
   .Split 1 14,
   .GroupBegin 3, .Split 1 7, .Char 'y', .GroupBegin 4, .Char 'a',
   .GroupEnd 4, .Char 'x', .Jump 4, .Char 'y', .Char 'a', .Ref 2,
   .GroupEnd 3, .Jump (-13), .Match]

/-- The text yaxyab. -/
def text_yaxyab : List Char := ['y', 'a', 'x', 'y', 'a', 'b']

/-- The opening brace character. -/
def lbrace : Char := Char.ofNat 123

/-- The closing brace character. -/
def rbrace : Char := Char.ofNat 125

/-! ### Helper lemmas -/

/-- After restore_context, the entry addressed by the group number has a
zero end offset. -/
theorem restore_context_snd_eq_zero (caps : Caps) (n : Nat) (p : Nat × Nat)
    (h : (restore_context caps n)[n - 1]? = some p) : p.2 = 0 := by
  unfold restore_context at h
  cases hc : caps[n - 1]? with
  | none => rw [hc] at h; exact absurd (hc ▸ h) (by simp)
  | some sp =>
    obtain ⟨s, e⟩ := sp
    rw [hc] at h
    have hlt : n - 1 < caps.length := by
      rcases List.getElem?_eq_some_iff.mp hc with ⟨hl, _⟩; exact hl
    rw [List.getElem?_set_eq_of_lt _ hlt] at h
    cases h; rfl

/-! ### Claims -/

/-- C1: the claim states that a matched back-reference advances the
offset by the byte length of the captured substring, so that matching
stays correct for non-ASCII text.  The code advances by the character
count instead (vm.rs line 91): on the compiled pattern (.)\1z and the
text of two e-acute characters followed by z, where the captured
substring is one character of two bytes, the VM lands in the middle of a
character and reports no match, while the spec executor (byte-length
advance) matches. -/
theorem C1_ref_advance_eval :
    compile ['(', '.', ')', '\\', '1', 'z'] = .ok prog_dotref ∧
    run 1000 prog_dotref text_eez 0 0 [] = (.ok false, [(0, 0)]) ∧
    runSpec 1000 prog_dotref text_eez 0 0 [] = (.ok true, [(0, 2)]) :=
  ⟨rfl, rfl, rfl⟩

/-- C2 counterexample: the claim states that Jump and Split carry
absolute instruction indices with no relative interpretation anywhere.
The compiled pattern a* carries Jump (-2) (a negative value cannot be an
absolute index), the code's executor runs it successfully by adding
offsets to the current pc, and the spec executor, which does interpret
the stored values as absolute indices, aborts on the negative target. -/
theorem C2_absolute_addressing_counterexample :
    compile ['a', '*'] = .ok prog_astar ∧
    run 100 prog_astar ['a', 'a', 'b'] 0 0 [] = (.ok true, []) ∧
    runSpec 100 prog_astar ['a', 'a', 'b'] 0 0 [] = (.abort, []) :=
  ⟨rfl, rfl, rfl⟩

/-- C2 amended: Jump and Split values are signed offsets relative to the
current pc: executing Jump(o) continues at jump_by pc o = pc + o (cast
to usize), Split(o1, o2) tries pc + o1 and then pc + o2, and the
compiler emits matching relative offsets, e.g. the zero-or-more code for
a block X is Split(1, len X + 2); X; Jump(-(1 + len X)). -/
theorem C2_relative_dispatch :
    (∀ (f : Nat) (instrs : List Inst) (t : List Char) (pc cursor : Nat)
        (caps : Caps) (off : Int), instrs[pc]? = some (.Jump off) →
        run (f + 1) instrs t pc cursor caps =
          run f instrs t (jump_by pc off) cursor caps) ∧
    (∀ (f : Nat) (instrs : List Inst) (t : List Char) (pc cursor : Nat)
        (caps : Caps) (o1 o2 : Int), instrs[pc]? = some (.Split o1 o2) →
        run (f + 1) instrs t pc cursor caps =
          match run f instrs t (jump_by pc o1) cursor caps with
          | (.ok true, caps1) => (.ok true, caps1)
          | (.ok false, caps1) => run f instrs t (jump_by pc o2) cursor caps1
          | other => other) ∧
    (∀ block : List Inst, emit_zero_or_more_code block =
        [Inst.Split 1 ((block.length : Int) + 2)] ++ block ++
          [Inst.Jump (-(1 + (block.length : Int)))]) := by
  refine ⟨?_, ?_, ?_⟩
  · intro f instrs t pc cursor caps off h
    simp only [run, h]
  · intro f instrs t pc cursor caps o1 o2 h
    simp only [run, h]
  · intro block
    simp only [emit_zero_or_more_code, emit_split_code, emit_jump_backward,
      calc_jump_offset, List.length_append, List.length_cons, List.length_nil,
      List.append_nil, List.append_assoc, List.cons_append, List.nil_append,
      List.cons.injEq, Inst.Split.injEq, Inst.Jump.injEq]
    refine ⟨⟨trivial, by push_cast; omega⟩, ?_⟩
    simp only [List.append_right_inj, List.cons.injEq, Inst.Jump.injEq, and_true]
    omega

/-- C2 witness. -/
theorem C2_relative_dispatch_witness :
    run 5 [Inst.Jump 1, Inst.Match] [] 0 0 [] = (.ok true, []) := by
  rw [C2_relative_dispatch.1 4 [Inst.Jump 1, Inst.Match] [] 0 0 [] 1 rfl]
  rfl

/-- C3: the claim states that the VM only returns booleans and never
panics, and specifically that a Ref to a group that was opened but never
closed yields a failed match.  On the compiled pattern a(b\1) and the
text ab, group 1 is open (entry (1, 0)) when Ref 1 executes, and the
code slices text[1..0], a Rust slice-index panic (.abort); the spec
executor returns the failed match the claim describes. -/
theorem C3_ref_open_group_panics :
    compile ['a', '(', 'b', '\\', '1', ')'] = .ok prog_openref ∧
    run 100 prog_openref ['a', 'b'] 0 0 [] = (.abort, [(1, 0)]) ∧
    runSpec 100 prog_openref ['a', 'b'] 0 0 [] = (.ok false, [(1, 0)]) :=
  ⟨rfl, rfl, rfl⟩

/-- C4 counterexample: the claim states that after a rolled-back
alternative, a Split alternative that re-enters group n sees a clean
capture slot (fresh start, no stale end).  On prog_reenter and the text
ab, the failed first alternative records start offset 1 for group 1;
the second alternative re-enters group 1 at offset 0, but GroupBegin
pushes a fresh pair at the tail of the table ((0, 0), index 1) while
GroupEnd 1 and Ref 1 keep addressing index 0, so the consulted slot
becomes (1, 1) - the stale start 1 of the abandoned path with the new
end - and the run succeeds by matching the empty captured text.  The
spec executor, whose re-entered group 1 gets the clean slot (0, 0) and
then span (0, 1), rejects the same input. -/
theorem C4_reentry_stale_start_counterexample :
    run 1000 prog_reenter ['a', 'b'] 0 0 [] = (.ok true, [(1, 1), (0, 0)]) ∧
    runSpec 1000 prog_reenter ['a', 'b'] 0 0 [] = (.ok false, [(0, 0)]) :=
  ⟨rfl, rfl⟩

/-- C4 amended: when the continuation after GroupEnd(n) fails, the
provisional end recorded at index n - 1 is indeed rolled back to the
open state 0 before the failure propagates; but a Split alternative that
re-enters group n afterwards does not see a clean slot: GroupBegin
pushes a new pair at the tail of the capture vector while GroupEnd(n)
and Ref(n) keep addressing index n - 1, so the slot used for group n
retains the start offset of the abandoned path (concretely, the second
alternative of prog_reenter enters group 1 at offset 0 yet the run ends
with the slot for group 1 holding (1, 1)). -/
theorem C4_rollback_and_stale_reentry :
    (∀ (f : Nat) (instrs : List Inst) (t : List Char) (pc cursor : Nat)
        (caps caps' : Caps) (n : Nat) (p : Nat × Nat),
        instrs[pc]? = some (.GroupEnd n) →
        run (f + 1) instrs t pc cursor caps = (.ok false, caps') →
        caps'[n - 1]? = some p → p.2 = 0) ∧
    run 1000 prog_reenter ['a', 'b'] 0 0 [] = (.ok true, [(1, 1), (0, 0)]) := by
  constructor
  · intro f instrs t pc cursor caps caps' n p hinst hrun hp
    simp only [run, hinst] at hrun
    rcases hr : run f instrs t (pc + 1) cursor (fill_back caps n cursor) with ⟨r, c2⟩
    rw [hr] at hrun
    match r with
    | .ok true => exact absurd hrun (by simp)
    | .abort => exact absurd hrun (by simp)
    | .out => exact absurd hrun (by simp)
    | .ok false =>
      simp only [Prod.mk.injEq, true_and] at hrun
      subst hrun
      exact restore_context_snd_eq_zero c2 n p hp
  · rfl

/-- C4 witness. -/
theorem C4_rollback_witness :
    run 3 [Inst.GroupEnd 1, Inst.Char 'q', Inst.Match] ['z'] 0 0 [(5, 7)]
        = (.ok false, [(5, 0)]) ∧ (5, 0).2 = 0 :=
  ⟨rfl, C4_rollback_and_stale_reentry.1 2 [Inst.GroupEnd 1, Inst.Char 'q',
    Inst.Match] ['z'] 0 0 [(5, 7)] [(5, 0)] 1 (5, 0) rfl rfl rfl⟩

/-- C5 counterexample: the claim states that a successful Start
continues with the instruction at pc + 1, so the instructions after
Start still decide the overall result.  On the program Start; Char q;
Match and the text z at offset 0, the code returns overall success
without consulting Char q, while the spec executor (which does recurse
to pc + 1) fails at Char q. -/
theorem C5_start_counterexample :
    run 10 [Inst.Start, Inst.Char 'q', Inst.Match] ['z'] 0 0 []
        = (.ok true, []) ∧
    runSpec 10 [Inst.Start, Inst.Char 'q', Inst.Match] ['z'] 0 0 []
        = (.ok false, []) :=
  ⟨rfl, rfl⟩

/-- C5 amended: executing Start at text offset o succeeds iff o = 0 and
consumes no input, but on success the run terminates immediately with
overall success: the instructions after Start are not consulted and the
capture table is returned unchanged. -/
theorem C5_start_semantics :
    ∀ (f : Nat) (instrs : List Inst) (t : List Char) (pc cursor : Nat)
      (caps : Caps), instrs[pc]? = some .Start →
      run (f + 1) instrs t pc cursor caps = (.ok (decide (cursor = 0)), caps) := by
  intro f instrs t pc cursor caps h
  simp only [run, h]

/-- C5 witness. -/
theorem C5_start_semantics_witness :
    run 8 [Inst.Start] ['a', 'b'] 0 0 [] = (.ok true, []) := by
  rw [C5_start_semantics 7 [Inst.Start] ['a', 'b'] 0 0 [] rfl]
  rfl

/-- C10: compilation is not total over arbitrary patterns.  parse_atom
accepts as a literal exactly the whitelist characters (ASCII letters,
digits, comma, angle brackets, colon, space, hyphen, underscore, double
quote, apostrophe), and an ordinary character outside the whitelist -
for example a percent sign, a closing brace, or a vertical bar outside a
group - reaches the todo!() branch: compile neither returns a program
nor a ParseError but panics. -/
theorem C10_parse_atom_whitelist :
    compile ['%'] = .abort ∧ compile [rbrace] = .abort ∧
    compile ['|'] = .abort ∧
    (∀ c : Char, isLiteralChar c = true → compile [c] = .ok [.Char c, .Match]) := by
  refine ⟨rfl, rfl, rfl, ?_⟩
  intro c hc
  have hdot : ¬(c = '.') := fun h => absurd (h ▸ hc) (by decide)
  have hlp : ¬(c = '(') := fun h => absurd (h ▸ hc) (by decide)
  have ha : parse_atom 17 ⟨[c], [], 1⟩ = .ok [.Char c] ⟨[], [], 1⟩ := by
    simp only [parse_atom]
    rw [if_neg hdot, if_pos hc]
  have hb : parse_block 18 ⟨[c], [], 1⟩ = .ok [.Char c] ⟨[], [], 1⟩ := by
    simp only [parse_block]
    rw [if_neg hlp, ha]
  have ht : parse_term 19 ⟨[c], [], 1⟩ = .ok [.Char c] ⟨[], [], 1⟩ := by
    simp only [parse_term, hb, apply_quantifier]
  have he : parse_expr 20 ⟨[c], [], 1⟩ [] = .ok [.Char c] ⟨[], [], 1⟩ := by
    simp only [parse_expr, ht, List.nil_append]
  simp only [compile, compileFuel, List.length_cons, List.length_nil]
  norm_num
  rw [he]
  rfl

/-- C10 witness. -/
theorem C10_parse_atom_whitelist_witness :
    compile ['<'] = .ok [Inst.Char '<', Inst.Match] :=
  C10_parse_atom_whitelist.2.2.2 '<' (by decide)

/-- C7 counterexample: the claim states that outside character classes
the only supported escapes are backslash-d, backslash-w and the
back-references backslash-1 through backslash-9, every other escaped
character e failing with UnknownEscape(e).  The pattern of two
backslashes compiles successfully to a literal backslash instruction
(parser.rs line 262), refuting the claimed exhaustive list for
e = backslash. -/
theorem C7_escaped_backslash_counterexample :
    compile ['\\', '\\'] = .ok [.Char '\\', .Match] := rfl

/-- C7 amended: outside character classes the supported escapes are
backslash-d, backslash-w, backslash-backslash and backslash-1 through
backslash-9, compiling to Digit, MetaChar, a literal backslash Char and
Ref respectively; when parse_atom meets an escape of any other character
e, compilation fails with UnknownEscape(e), and a pattern ending in a
bare backslash fails with IncompletedEscape. -/
theorem C7_escapes :
    (∀ e : Char, ¬(e = 'd') → ¬(e = 'w') → ¬(e = '\\') → ¬('1' ≤ e ∧ e ≤ '9') →
      compile ['\\', e] = .err (.UnknownEscape e)) ∧
    compile ['\\'] = .err .IncompletedEscape ∧
    compile ['\\', '\\'] = .ok [.Char '\\', .Match] ∧
    compile ['\\', 'd'] = .ok [.Digit, .Match] ∧
    compile ['\\', 'w'] = .ok [.MetaChar, .Match] ∧
    (∀ d : Char, '1' ≤ d → d ≤ '9' →
      compile ['\\', d] = .ok [.Ref (d.toNat - '0'.toNat), .Match]) := by
  refine ⟨?_, rfl, rfl, rfl, rfl, ?_⟩
  · intro e h1 h2 h3 h4
    have ha : parse_atom 21 ⟨['\\', e], [], 1⟩ = .err (.UnknownEscape e) := by
      simp only [parse_atom]
      rw [if_neg (by decide), if_neg (by decide), if_pos trivial,
        if_neg h1, if_neg h2, if_neg h3, if_neg h4]
    have hb : parse_block 22 ⟨['\\', e], [], 1⟩ = .err (.UnknownEscape e) := by
      simp only [parse_block]
      rw [if_neg (by decide), ha]
    have ht : parse_term 23 ⟨['\\', e], [], 1⟩ = .err (.UnknownEscape e) := by
      simp only [parse_term, hb]
    have he : parse_expr 24 ⟨['\\', e], [], 1⟩ [] = .err (.UnknownEscape e) := by
      simp only [parse_expr, ht]
    simp only [compile, compileFuel, List.length_cons, List.length_nil]
    norm_num
    rw [he]
  · intro d hd1 hd9
    have hda : ¬(d = 'd') := fun h => absurd (h ▸ hd9) (by decide)
    have hdb : ¬(d = 'w') := fun h => absurd (h ▸ hd9) (by decide)
    have hdc : ¬(d = '\\') := fun h => absurd (h ▸ hd9) (by decide)
    have ha : parse_atom 21 ⟨['\\', d], [], 1⟩
        = .ok [.Ref (d.toNat - '0'.toNat)] ⟨[], [], 1⟩ := by
      simp only [parse_atom]
      rw [if_neg (by decide), if_neg (by decide), if_pos trivial,
        if_neg hda, if_neg hdb, if_neg hdc, if_pos ⟨hd1, hd9⟩]
    have hb : parse_block 22 ⟨['\\', d], [], 1⟩
        = .ok [.Ref (d.toNat - '0'.toNat)] ⟨[], [], 1⟩ := by
      simp only [parse_block]
      rw [if_neg (by decide), ha]
    have ht : parse_term 23 ⟨['\\', d], [], 1⟩
        = .ok [.Ref (d.toNat - '0'.toNat)] ⟨[], [], 1⟩ := by
      simp only [parse_term, hb, apply_quantifier]
    have he : parse_expr 24 ⟨['\\', d], [], 1⟩ []
        = .ok [.Ref (d.toNat - '0'.toNat)] ⟨[], [], 1⟩ := by
      simp only [parse_expr, ht, List.nil_append]
    simp only [compile, compileFuel, List.length_cons, List.length_nil]
    norm_num
    rw [he]
    rfl

/-- C7 witness. -/
theorem C7_escapes_witness :
    compile ['\\', '%'] = .err (.UnknownEscape '%') ∧
    compile ['\\', '3'] = .ok [.Ref 3, .Match] :=
  ⟨C7_escapes.1 '%' (by decide) (by decide) (by decide) (by decide),
   C7_escapes.2.2.2.2.2 '3' (by decide) (by decide)⟩

/-- Fields produced by splitting a comma-free prefix. -/
theorem splitComma_no_comma (A : List Char) (h : ∀ c ∈ A, c ≠ ',') :
    splitComma A = [A] := by
  induction A with
  | nil => rfl
  | cons c A ih =>
    simp only [splitComma]
    rw [if_neg (h c (by simp)), ih (fun x hx => h x (by simp [hx]))]

/-- Splitting at the first comma after a comma-free prefix. -/
theorem splitComma_append (A B : List Char) (h : ∀ c ∈ A, c ≠ ',') :
    splitComma (A ++ ',' :: B) = A :: splitComma B := by
  induction A with
  | nil => simp [splitComma]
  | cons c A ih =>
    simp only [List.cons_append, splitComma, List.append_eq]
    rw [if_neg (h c (by simp)), ih (fun x hx => h x (by simp [hx]))]

/-- A string accepted by parseUsize consists of digits. -/
theorem parseUsize_digits {l : List Char} {m : Nat}
    (h : parseUsize l = some m) : ∀ c ∈ l, c.isDigit := by
  by_cases h0 : l = []
  · exact absurd h (by simp [parseUsize, h0])
  · by_cases h1 : l.all Char.isDigit = true
    · intro c hc; exact List.all_eq_true.mp h1 c hc
    · rw [parseUsize, if_neg h0, if_neg h1] at h
      exact absurd h (by simp)

/-- A value accepted by parseUsize is bounded by usizeMax. -/
theorem parseUsize_le {l : List Char} {m : Nat}
    (h : parseUsize l = some m) : m ≤ usizeMax := by
  simp only [parseUsize] at h
  split at h
  · exact absurd h (by simp)
  · split at h
    · split at h
      · next hle => cases h; exact hle
      · exact absurd h (by simp)
    · exact absurd h (by simp)

/-- The digit-comma buffering loop errs as soon as it meets a character
that is neither a digit, a comma nor the closing brace. -/
theorem collect_braces_foreign (D : List Char) :
    ∀ (f : Nat) (c : Char) (rest buf : List Char),
      (∀ d ∈ D, d.isDigit = true ∨ d = ',') →
      ¬(c.isDigit = true) → ¬(c = ',') → ¬(c = rbrace) →
      collect_braces (D.length + f + 1) (D ++ c :: rest) buf = .err := by
  induction D with
  | nil =>
    intro f c rest buf _ h1 h2 h3
    simp only [List.nil_append, List.length_nil, Nat.zero_add, collect_braces]
    rw [if_neg (by tauto), if_neg (show ¬(c = Char.ofNat 125) from h3)]
  | cons d D ih =>
    intro f c rest buf hD h1 h2 h3
    rw [show (d :: D).length + f + 1 = (D.length + f + 1) + 1 by simp; omega]
    simp only [List.cons_append, collect_braces]
    rw [if_pos (hD d (by simp))]
    exact ih f c rest (buf ++ [d]) (fun x hx => hD x (by simp [hx])) h1 h2 h3

/-- The digit-comma buffering loop errs when the input ends before the
closing brace. -/
theorem collect_braces_unclosed (D : List Char) :
    ∀ (f : Nat) (buf : List Char),
      (∀ d ∈ D, d.isDigit = true ∨ d = ',') →
      collect_braces (D.length + f + 1) D buf = .err := by
  induction D with
  | nil => intro f buf _; simp [collect_braces]
  | cons d D ih =>
    intro f buf hD
    rw [show (d :: D).length + f + 1 = (D.length + f + 1) + 1 by simp; omega]
    simp only [collect_braces]
    rw [if_pos (hD d (by simp))]
    exact ih f (buf ++ [d]) (fun x hx => hD x (by simp [hx]))

/-- A failing buffering loop surfaces from the quantifier phase as
InvalidQuantifier. -/
theorem aq_brace_err (f : Nat) (block : List Inst) (rest : List Char)
    (ns : List Nat) (g : Nat) (h : collect_braces f rest [] = .err) :
    apply_quantifier f block ⟨lbrace :: rest, ns, g⟩ = .err .InvalidQuantifier := by
  simp only [apply_quantifier]
  rw [if_neg (by decide), if_neg (by decide), if_neg (by decide),
    if_pos (show lbrace = Char.ofNat 123 from rfl), h]

/-- C6 counterexample: the claim states that compilation returns
InvalidQuantifier whenever the text between the braces is not
well-formed digit text, and that a finite upper bound n yields (n - m)
optional copies.  Both clauses fail: the brace body 1,2,3 is not a
well-formed bound pair, yet the pattern compiles with the third
comma-separated field silently ignored, as the bound pair (1, 2); and
the finite upper bound 18446744073709551615 (the usize maximum, written
out in full) is compiled as the open bound - the emitted code is the
star loop, not 18446744073709551615 optional copies. -/
theorem C6_extra_field_counterexample :
    compile ['a', lbrace, '1', ',', '2', ',', '3', rbrace]
      = .ok [.Char 'a', .Split 1 2, .Char 'a', .Match] ∧
    compile ['a', lbrace, '0', ',', '1', '8', '4', '4', '6', '7', '4', '4',
        '0', '7', '3', '7', '0', '9', '5', '5', '1', '6', '1', '5', rbrace]
      = .ok [.Split 1 3, .Char 'a', .Jump (-2), .Match] :=
  ⟨rfl, rfl⟩

/-- C6 amended: with digit fields A parsing to m and B parsing to n, the
brace expansion emits m mandatory copies followed by (n - m) optional
copies for body A,B when n is below usize::MAX, the m copies followed by
a starred copy when the second field is empty ({m,}) or parses to
usize::MAX, and exactly m copies for body A alone (m below usize::MAX);
compilation returns InvalidQuantifier when m > n, when a character other
than a digit, comma or closing brace appears in the body, when the brace
is never closed, and when a required field fails to parse as usize
(missing or empty first field, or overflow past usize::MAX); but
comma-separated fields beyond the second are ignored rather than
rejected ({1,2,3} compiles as {1,2}). -/
theorem C6_brace_expansion :
    (∀ (block : List Inst) (A B : List Char) (m n : Nat),
      parseUsize A = some m → parseUsize B = some n →
      ((m ≤ n → n ≠ usizeMax →
        braceExpand (A ++ ',' :: B) block
          = .ok (joinN m block ++ joinN (n - m) (emit_zero_or_one_code block))) ∧
       (n < m → braceExpand (A ++ ',' :: B) block = .error .InvalidQuantifier) ∧
       (n = usizeMax →
        braceExpand (A ++ ',' :: B) block
          = .ok (joinN m block ++ emit_zero_or_more_code block)) ∧
       (m ≠ usizeMax → braceExpand A block = .ok (joinN m block)) ∧
       braceExpand (A ++ [',']) block
         = .ok (joinN m block ++ emit_zero_or_more_code block))) ∧
    (∀ (block : List Inst) (A : List Char), parseUsize A = none →
      (∀ c ∈ A, c ≠ ',') →
      braceExpand A block = .error .InvalidQuantifier ∧
      ∀ B : List Char, braceExpand (A ++ ',' :: B) block = .error .InvalidQuantifier) ∧
    (∀ (block : List Inst) (A B : List Char) (m : Nat),
      parseUsize A = some m → parseUsize B = none → B ≠ [] →
      (∀ c ∈ A, c ≠ ',') → (∀ c ∈ B, c ≠ ',') →
      braceExpand (A ++ ',' :: B) block = .error .InvalidQuantifier) ∧
    (∀ (f : Nat) (block : List Inst) (ns : List Nat) (g : Nat) (D : List Char)
      (c : Char) (rest : List Char),
      (∀ d ∈ D, d.isDigit = true ∨ d = ',') →
      ¬(c.isDigit = true) → ¬(c = ',') → ¬(c = rbrace) →
      apply_quantifier (D.length + f + 1) block ⟨lbrace :: (D ++ c :: rest), ns, g⟩
        = .err .InvalidQuantifier) ∧
    (∀ (f : Nat) (block : List Inst) (ns : List Nat) (g : Nat) (D : List Char),
      (∀ d ∈ D, d.isDigit = true ∨ d = ',') →
      apply_quantifier (D.length + f + 1) block ⟨lbrace :: D, ns, g⟩
        = .err .InvalidQuantifier) ∧
    compile ['a', lbrace, '2', 'x', rbrace] = .err .InvalidQuantifier ∧
    compile ['a', lbrace, '2'] = .err .InvalidQuantifier ∧
    compile ['a', lbrace, ',', '2', rbrace] = .err .InvalidQuantifier ∧
    compile ['a', lbrace, '9', '9', '9', '9', '9', '9', '9', '9', '9', '9',
        '9', '9', '9', '9', '9', '9', '9', '9', '9', '9', rbrace]
      = .err .InvalidQuantifier := by
  refine ⟨?_, ?_, ?_, ?_, ?_, rfl, rfl, rfl, rfl⟩
  · intro block A B m n hA hB
    have hAnc : ∀ c ∈ A, c ≠ ',' :=
      fun c hc he => absurd (he ▸ parseUsize_digits hA c hc) (by decide)
    have hBnc : ∀ c ∈ B, c ≠ ',' :=
      fun c hc he => absurd (he ▸ parseUsize_digits hB c hc) (by decide)
    have hBne : B ≠ [] := fun h => absurd hB (by simp [h, parseUsize])
    have hsplit2 : splitComma (A ++ ',' :: B) = [A, B] := by
      rw [splitComma_append A B hAnc, splitComma_no_comma B hBnc]
    refine ⟨?_, ?_, ?_, ?_, ?_⟩
    · intro hmn hnmax
      simp only [braceExpand, hsplit2, List.getElem?_cons_zero, hA, hB,
        List.getElem?_cons_succ, if_neg hBne]
      rw [if_neg (Nat.not_lt.mpr hmn)]
      by_cases hnm : n = m
      · subst hnm
        simp [joinN, hnmax]
      · rw [if_neg hnmax, if_pos hnm]
    · intro hnm
      simp only [braceExpand, hsplit2, List.getElem?_cons_zero, hA, hB,
        List.getElem?_cons_succ, if_neg hBne]
      rw [if_pos hnm]
    · intro hmax
      subst hmax
      simp only [braceExpand, hsplit2, List.getElem?_cons_zero, hA, hB,
        List.getElem?_cons_succ, if_neg hBne]
      rw [if_neg (Nat.not_lt.mpr (parseUsize_le hA))]
      simp
    · intro hmmax
      rw [braceExpand, splitComma_no_comma A hAnc]
      simp only [List.getElem?_cons_zero, hA, List.getElem?_cons_succ,
        List.getElem?_nil]
      rw [if_neg (Nat.lt_irrefl m), if_neg hmmax, if_neg (fun h => h rfl)]
      simp
    · rw [braceExpand, splitComma_append A [] hAnc, splitComma_no_comma [] (by simp)]
      simp only [List.getElem?_cons_zero, hA, List.getElem?_cons_succ]
      simp [Nat.not_lt.mpr (parseUsize_le hA)]
  · intro block A hA hAnc
    constructor
    · rw [braceExpand, splitComma_no_comma A hAnc]
      simp [hA]
    · intro B
      rw [braceExpand, splitComma_append A B hAnc]
      simp [hA]
  · intro block A B m hA hB hBne hAnc hBnc
    rw [braceExpand, splitComma_append A B hAnc, splitComma_no_comma B hBnc]
    simp [hA, hB, hBne]
  · intro f block ns g D c rest hD h1 h2 h3
    exact aq_brace_err _ _ _ _ _ (collect_braces_foreign D f c rest [] hD h1 h2 h3)
  · intro f block ns g D hD
    exact aq_brace_err _ _ _ _ _ (collect_braces_unclosed D f [] hD)

/-- C6 witness. -/
theorem C6_brace_expansion_witness :
    braceExpand ['2', ',', '4'] [Inst.Char 'a']
      = .ok (joinN 2 [Inst.Char 'a'] ++
          joinN 2 (emit_zero_or_one_code [Inst.Char 'a'])) :=
  ((C6_brace_expansion.1 [Inst.Char 'a'] ['2'] ['4'] 2 4 rfl rfl).1
    (by decide) (by decide))

/-- Valid code points below the surrogate range round-trip through
Char.ofNat. -/
theorem toNat_ofNat_lt {n : Nat} (h : n < 55296) : (Char.ofNat n).toNat = n := by
  have hv : n.isValidChar := Or.inl h
  rw [Char.ofNat, dif_pos hv]
  simp [Char.ofNatAux, Char.toNat, UInt32.toNat]

/-- ASCII alphanumeric characters have code points below 123. -/
theorem alnum_toNat_lt {c : Char} (h : c.isAlphanum = true) : c.toNat < 123 := by
  simp only [Char.isAlphanum, Char.isAlpha, Char.isUpper, Char.isLower,
    Char.isDigit, Bool.or_eq_true, Bool.and_eq_true, decide_eq_true_eq] at h
  simp only [Char.toNat, UInt32.toNat]
  rcases h with (⟨h1, h2⟩ | ⟨h1, h2⟩) | ⟨h1, h2⟩
  · have h2' : c.val.toBitVec.toNat ≤ 90 :=
      (show ((90 : UInt32).toBitVec.toNat = 90) from rfl) ▸
        BitVec.le_def.mp (UInt32.le_def.mp h2)
    omega
  · have h2' : c.val.toBitVec.toNat ≤ 122 :=
      (show ((122 : UInt32).toBitVec.toNat = 122) from rfl) ▸
        BitVec.le_def.mp (UInt32.le_def.mp h2)
    omega
  · have h2' : c.val.toBitVec.toNat ≤ 57 :=
      (show ((57 : UInt32).toBitVec.toNat = 57) from rfl) ▸
        BitVec.le_def.mp (UInt32.le_def.mp h2)
    omega

/-- Membership in a HashSet after insert. -/
theorem mem_hsInsert (s : List Char) (x c : Char) :
    c ∈ hsInsert s x ↔ c ∈ s ∨ c = x := by
  unfold hsInsert
  split
  · next hc =>
    constructor
    · exact Or.inl
    · rintro (h | rfl)
      · exact h
      · simpa using hc
  · simp

/-- Membership in a HashSet after extend. -/
theorem mem_hsExtend (l : List Char) (acc : List Char) (c : Char) :
    c ∈ hsExtend acc l ↔ c ∈ acc ∨ c ∈ l := by
  induction l generalizing acc with
  | nil => simp [hsExtend]
  | cons x l ih =>
    simp only [hsExtend, List.foldl_cons] at *
    rw [ih (hsInsert acc x), mem_hsInsert]
    simp [List.mem_cons]
    tauto

/-- Membership in the ascending character range. -/
theorem mem_charRangeList {a b c : Char} (hb : b.toNat < 55296) :
    c ∈ charRangeList a b ↔ a.toNat ≤ c.toNat ∧ c.toNat ≤ b.toNat := by
  simp only [charRangeList, List.mem_map, List.mem_range]
  constructor
  · rintro ⟨i, hi, rfl⟩
    rw [toNat_ofNat_lt (by omega)]
    omega
  · rintro ⟨h1, h2⟩
    refine ⟨c.toNat - a.toNat, by omega, ?_⟩
    rw [show a.toNat + (c.toNat - a.toNat) = c.toNat by omega, Char.ofNat_toNat]

/-- One step of the class loop: the closing bracket completes the
class. -/
theorem parse_cls_close (f : Nat) (neg : Bool) (set rest : List Char) :
    parse_cls (f + 1) (']' :: rest) neg set = .ok (.CharClass neg set) rest := by
  simp [parse_cls]

/-- One step of the class loop: an alphanumeric character followed by a
hyphen and an alphanumeric character extends the set through
translate_range. -/
theorem parse_cls_range (f : Nat) (c d : Char) (rest : List Char) (neg : Bool)
    (set : List Char) (hc : c.isAlphanum = true) (hd : d.isAlphanum = true) :
    parse_cls (f + 1) (c :: '-' :: d :: rest) neg set
      = parse_cls f rest neg (hsExtend set (translate_range c d)) := by
  have h1 : ¬(c = ']') := fun h => absurd (h ▸ hc) (by decide)
  have h2 : ¬(c = '\\') := fun h => absurd (h ▸ hc) (by decide)
  simp only [parse_cls]
  rw [if_neg h1, if_neg h2, if_pos hc, if_pos hd]

/-- C8 counterexample: the claim states that when a class range does not
expand, the three characters start, hyphen, end are all inserted
literally.  In the class of the pattern with body a hyphen percent, the
hyphen is consumed while the percent sign is not alphanumeric, and only
the hyphen is inserted: the start character a is dropped, so the
compiled class contains the hyphen and the percent sign but not a. -/
theorem C8_dropped_start_counterexample :
    compile ['[', 'a', '-', '%', ']']
        = .ok [.CharClass false ['-', '%'], .Match] ∧
    ('a' ∈ (['-', '%'] : List Char)) = False :=
  ⟨rfl, by simp⟩

/-- C8 amended: for a class consisting of a single range candidate with
both endpoints ASCII alphanumeric, the range expands to the full
codepoint interval exactly when the endpoints are in ascending order and
of the same kind (digit-digit, lower-lower, upper-upper), and otherwise
the three characters are inserted literally; when the character after
the hyphen is not alphanumeric, only the hyphen is inserted and the
start character is dropped (see the counterexample). -/
theorem C8_class_ranges :
    ∀ s e : Char, s.isAlphanum = true → e.isAlphanum = true →
      compile ['[', s, '-', e, ']']
          = .ok [.CharClass false (hsExtend [] (translate_range s e)), .Match] ∧
      (∀ c : Char, c ∈ hsExtend [] (translate_range s e) ↔
        (if s.toNat ≤ e.toNat ∧
            ((s.isDigit ∧ e.isDigit) ∨ (s.isLower ∧ e.isLower) ∨
              (s.isUpper ∧ e.isUpper)) then
          s.toNat ≤ c.toNat ∧ c.toNat ≤ e.toNat
        else (c = s ∨ c = '-' ∨ c = e))) := by
  intro s e hs he
  have hsne3 : ¬(s = '^') := fun h => absurd (h ▸ hs) (by decide)
  constructor
  · have hcls : parse_cls 33 [s, '-', e, ']'] false []
        = .ok (.CharClass false (hsExtend [] (translate_range s e))) [] := by
      rw [parse_cls_range 32 s e [']'] false [] hs he, parse_cls_close]
    have hatom : parse_atom 33 ⟨['[', s, '-', e, ']'], [], 1⟩
        = .ok [.CharClass false (hsExtend [] (translate_range s e))] ⟨[], [], 1⟩ := by
      simp only [parse_atom, List.head?_cons, Option.some.injEq]
      rw [if_neg (by decide), if_neg (by decide), if_neg (by decide),
        if_pos trivial, decide_eq_false hsne3]
      simp only [Bool.false_eq_true, if_false, List.tail_cons]
      rw [hcls]
    have hb : parse_block 34 ⟨['[', s, '-', e, ']'], [], 1⟩
        = .ok [.CharClass false (hsExtend [] (translate_range s e))] ⟨[], [], 1⟩ := by
      simp only [parse_block]
      rw [if_neg (by decide), hatom]
    have ht : parse_term 35 ⟨['[', s, '-', e, ']'], [], 1⟩
        = .ok [.CharClass false (hsExtend [] (translate_range s e))] ⟨[], [], 1⟩ := by
      simp only [parse_term, hb, apply_quantifier]
    have hex : parse_expr 36 ⟨['[', s, '-', e, ']'], [], 1⟩ []
        = .ok [.CharClass false (hsExtend [] (translate_range s e))] ⟨[], [], 1⟩ := by
      simp only [parse_expr, ht, List.nil_append]
    simp only [compile, compileFuel, List.length_cons, List.length_nil]
    norm_num
    rw [hex]
    rfl
  · intro c
    unfold translate_range
    by_cases hcond : s.toNat ≤ e.toNat ∧
        ((s.isDigit ∧ e.isDigit) ∨ (s.isLower ∧ e.isLower) ∨
          (s.isUpper ∧ e.isUpper))
    · rw [if_pos hcond, if_pos hcond, mem_hsExtend,
        mem_charRangeList (Nat.lt_trans (alnum_toNat_lt he) (by norm_num))]
      simp
    · rw [if_neg hcond, if_neg hcond, mem_hsExtend]
      simp

/-- C8 witness. -/
theorem C8_class_ranges_witness :
    compile ['[', 'a', '-', 'c', ']']
        = .ok [.CharClass false (hsExtend [] (translate_range 'a' 'c')), .Match] :=
  (C8_class_ranges 'a' 'c' (by decide) (by decide)).1

/-- One step of parse_expr on an exhausted stream. -/
theorem parse_expr_nil (f : Nat) (ns : List Nat) (g : Nat) (acc : List Inst) :
    parse_expr (f + 1) ⟨[], ns, g⟩ acc = .ok acc ⟨[], ns, g⟩ := by
  simp [parse_expr]

/-- One step of parse_expr on a non-empty stream whose first term
parses. -/
theorem parse_expr_step (f : Nat) (st st2 : PState) (acc res : List Inst)
    (hne : st.chars ≠ []) (h : parse_term f st = .ok res st2) :
    parse_expr (f + 1) st acc = parse_expr f st2 (acc ++ res) := by
  obtain ⟨chars, ns, g⟩ := st
  cases chars with
  | nil => exact absurd rfl hne
  | cons c r => simp only [parse_expr, h]

/-- One step of parse_term whose block phase succeeds. -/
theorem parse_term_ok (f : Nat) (st st1 : PState) (block : List Inst)
    (h : parse_block f st = .ok block st1) :
    parse_term (f + 1) st = apply_quantifier f block st1 := by
  simp only [parse_term, h]

/-- The quantifier phase at the end of the pattern. -/
theorem aq_nil (f : Nat) (block : List Inst) (ns : List Nat) (g : Nat) :
    apply_quantifier f block ⟨[], ns, g⟩ = .ok block ⟨[], ns, g⟩ := by
  simp [apply_quantifier]

/-- The quantifier phase on a star. -/
theorem aq_star (f : Nat) (block : List Inst) (rest : List Char)
    (ns : List Nat) (g : Nat) :
    apply_quantifier f block ⟨'*' :: rest, ns, g⟩
      = .ok (emit_zero_or_more_code block) ⟨rest, ns, g⟩ := by
  simp [apply_quantifier]

/-- The quantifier phase on a plus. -/
theorem aq_plus (f : Nat) (block : List Inst) (rest : List Char)
    (ns : List Nat) (g : Nat) :
    apply_quantifier f block ⟨'+' :: rest, ns, g⟩
      = .ok (emit_one_or_more_code block) ⟨rest, ns, g⟩ := by
  simp [apply_quantifier]

/-- The quantifier phase on an ordinary next character. -/
theorem aq_ordinary (f : Nat) (block : List Inst) (c : Char) (r : List Char)
    (ns : List Nat) (g : Nat) (h1 : ¬(c = '*')) (h2 : ¬(c = '+'))
    (h3 : ¬(c = '?')) (h4 : ¬(c = Char.ofNat 123)) :
    apply_quantifier f block ⟨c :: r, ns, g⟩ = .ok block ⟨c :: r, ns, g⟩ := by
  simp only [apply_quantifier]
  rw [if_neg h1, if_neg h2, if_neg h3, if_neg h4]

set_option maxHeartbeats 4000000 in
/-- C9 counterexample: the claim states that for every sub-pattern X and
text t the compiled X+ and XX* agree.  For X = (y(a)x|ya\2) on the text
yaxyab they do not: in the X+ program the one-or-more emitter duplicates
the block with the same group numbers, the second loop iteration closes
group 2 through the stale slot of iteration one, the failure of the x
branch rolls that slot back to (1, 0), and the alternative branch then
executes Ref 2 on the open span (1, 0), slicing text[1..0] - a panic; in
the XX* program the second copy carries fresh group numbers 3 and 4, its
Ref 2 reads the intact capture of the first copy, and the match
succeeds. -/
theorem C9_plus_concat_star_counterexample :
    compile pat_plus = .ok prog_plus ∧
    compile pat_concatstar = .ok prog_concatstar ∧
    is_match 1000 prog_plus text_yaxyab = .abort ∧
    is_match 1000 prog_concatstar text_yaxyab = .ok true :=
  ⟨rfl, rfl, rfl, rfl⟩

/-- C9 amended: the equivalence does hold for every group-free
sub-pattern: if the block phase of the parser consumes exactly X,
yielding the same block for any continuation and leaving the group state
untouched (which fails for patterns containing groups, whose numbering
differs between the two programs), then X+ and XX* compile to the same
program, so matching agrees on every text. -/
theorem C9_group_free_equiv (X : List Char) (block : List Inst)
    (h : ∀ (f : Nat) (rest : List Char) (ns : List Nat) (g : Nat),
      X.length + 2 ≤ f → parse_block f ⟨X ++ rest, ns, g⟩ = .ok block ⟨rest, ns, g⟩) :
    compile (X ++ ['+']) = compile (X ++ X ++ ['*']) := by
  have hXne : X ≠ [] := by
    intro hX
    have h0 := h (X.length + 2) [] [] 1 (Nat.le_refl _)
    rw [hX] at h0
    simp [parse_block, parse_atom] at h0
  obtain ⟨c0, X', hX0⟩ : ∃ c0 X', X = c0 :: X' := by
    cases X with
    | nil => exact absurd rfl hXne
    | cons a b => exact ⟨a, b, rfl⟩
  have hq : ¬(c0 = '*') ∧ ¬(c0 = '+') ∧ ¬(c0 = '?') ∧ ¬(c0 = Char.ofNat 123) := by
    refine ⟨?_, ?_, ?_, ?_⟩ <;> intro hc <;>
    · have h0 := h (X.length + 2) [] [] 1 (Nat.le_refl _)
      rw [hX0, hc] at h0
      simp [parse_block, parse_atom, isLiteralChar] at h0
  have hL : compile (X ++ ['+']) = .ok (emit_one_or_more_code block ++ [.Match]) := by
    have hF : compileFuel (X ++ ['+']) = 4 * X.length + 20 := by
      simp [compileFuel]
      ring
    have e1 : parse_term (4 * X.length + 19) ⟨X ++ ['+'], [], 1⟩
        = .ok (emit_one_or_more_code block) ⟨[], [], 1⟩ := by
      rw [parse_term_ok _ _ _ _ (h (4 * X.length + 18) ['+'] [] 1 (by omega))]
      exact aq_plus _ _ _ _ _
    have e2 : parse_expr (4 * X.length + 20) ⟨X ++ ['+'], [], 1⟩ []
        = .ok (emit_one_or_more_code block) ⟨[], [], 1⟩ := by
      rw [parse_expr_step _ _ _ _ _ (by simp [hX0]) e1, parse_expr_nil]
      simp
    simp only [compile, hF, e2]
  have hR : compile (X ++ X ++ ['*'])
      = .ok (block ++ emit_zero_or_more_code block ++ [.Match]) := by
    have hF : compileFuel (X ++ (X ++ ['*'])) = 8 * X.length + 20 := by
      simp [compileFuel]
      ring
    have f1 : parse_term (8 * X.length + 19) ⟨X ++ (X ++ ['*']), [], 1⟩
        = .ok block ⟨X ++ ['*'], [], 1⟩ := by
      rw [parse_term_ok _ _ _ _ (h (8 * X.length + 18) (X ++ ['*']) [] 1 (by omega))]
      rw [hX0]
      exact aq_ordinary _ _ _ _ _ _ hq.1 hq.2.1 hq.2.2.1 hq.2.2.2
    have f2 : parse_term (8 * X.length + 18) ⟨X ++ ['*'], [], 1⟩
        = .ok (emit_zero_or_more_code block) ⟨[], [], 1⟩ := by
      rw [parse_term_ok _ _ _ _ (h (8 * X.length + 17) ['*'] [] 1 (by omega))]
      exact aq_star _ _ _ _ _
    have f3 : parse_expr (8 * X.length + 20) ⟨X ++ (X ++ ['*']), [], 1⟩ []
        = .ok (block ++ emit_zero_or_more_code block) ⟨[], [], 1⟩ := by
      rw [parse_expr_step _ _ _ _ _ (by simp [hX0]) f1,
        parse_expr_step _ _ _ _ _ (by simp [hX0]) f2, parse_expr_nil]
      simp
    rw [show X ++ X ++ ['*'] = X ++ (X ++ ['*']) from List.append_assoc X X ['*']]
    simp only [compile, hF, f3]
  rw [hL, hR]
  simp [emit_one_or_more_code, List.append_assoc]

/-- C9 witness. -/
theorem C9_group_free_equiv_witness :
    compile (['a'] ++ ['+']) = compile (['a'] ++ ['a'] ++ ['*']) := by
  refine C9_group_free_equiv ['a'] [Inst.Char 'a'] ?_
  intro f rest ns g hf
  match f, hf with
  | f + 1, _ =>
    simp [parse_block, parse_atom, isLiteralChar]

end CCGrep
